import Mathlib

/-!
# RSA DocSign Studio — verification of the cryptographic pipeline

Shallow embedding of the document sign/encrypt/verify/decrypt pipeline of
the `rsa-docsign-studio` application (and of the tamper branch of the
`secret-agent-messenger` variant), together with a model of the platform
primitives (`btoa`/`atob`, Web Crypto) the source calls.

Bytes are modelled as `List Nat` with an explicit `< 256` bound where the
source guarantees it (`Uint8Array`).  Fallible platform calls (`atob`,
`crypto.subtle.decrypt`) return `Option`, where `none` models a thrown
exception / rejected promise.
-/

/-- Raw binary data, one `Nat` per byte (source: `Uint8Array` or `ArrayBuffer`). -/
abbrev Bytes := List Nat

/-- All entries fit in a byte, as a `Uint8Array` guarantees. -/
def allBytes (l : Bytes) : Prop := ∀ x ∈ l, x < 256

instance (l : Bytes) : Decidable (allBytes l) := by
  unfold allBytes; infer_instance

/-! ## Base64 (platform `btoa` / `atob`)

`arrayBufferToBase64`/`bytesToBase64` build a binary string from the bytes and
call the platform `btoa`; the decoding direction calls `atob` and reads the
char codes back.  We model the byte-level composition directly.  `atob`
follows the WHATWG forgiving-base64 decoder: ASCII whitespace is removed,
then (if the length is a multiple of four) up to two trailing `=` are
stripped, a remaining length of 1 mod 4 or a character outside the alphabet
is an error (`none`, modelling the thrown `InvalidCharacterError`). -/

/-- The standard base64 alphabet `A–Z a–z 0–9 + /`. -/
def b64Alphabet : List Char :=
  "ABCDEFGHIJKLMNOPQRSTUVWXYZabcdefghijklmnopqrstuvwxyz0123456789+/".toList

/-- Character for a six-bit group. -/
def b64Char (n : Nat) : Char := b64Alphabet.getD n '?'

/-- Index of a character in a list, `none` when absent. -/
def lookupIdx : List Char → Char → Option Nat
  | [], _ => none
  | a :: r, c => if a = c then some 0 else (lookupIdx r c).map (· + 1)

/-- Six-bit value of a base64 character. -/
def b64Val (c : Char) : Option Nat := lookupIdx b64Alphabet c

/-- Byte triples to six-bit groups (the last group covers one or two bytes). -/
def toSextets : Bytes → List Nat
  | [] => []
  | [a] => [a / 4, a % 4 * 16]
  | [a, b] => [a / 4, a % 4 * 16 + b / 16, b % 16 * 4]
  | a :: b :: c :: rest =>
      a / 4 :: (a % 4 * 16 + b / 16) :: (b % 16 * 4 + c / 64) :: c % 64 :: toSextets rest

/-- Six-bit groups back to bytes (a final group of two or three groups
yields one or two bytes). -/
def decodeSextets : List Nat → Bytes
  | [] => []
  | [_] => []
  | [s1, s2] => [s1 * 4 + s2 / 16]
  | [s1, s2, s3] => [s1 * 4 + s2 / 16, s2 % 16 * 16 + s3 / 4]
  | s1 :: s2 :: s3 :: s4 :: rest =>
      (s1 * 4 + s2 / 16) :: (s2 % 16 * 16 + s3 / 4) :: (s3 % 4 * 64 + s4) ::
        decodeSextets rest

/-- `btoa` applied to the binary string of the given bytes. -/
def btoaBytes (l : Bytes) : String :=
  let sx := toSextets l
  ⟨sx.map b64Char ++ List.replicate ((4 - sx.length % 4) % 4) '='⟩

/-- ASCII whitespace removed by the forgiving-base64 decoder. -/
def isB64Ws (c : Char) : Bool :=
  c = ' ' || c = '\t' || c = '\n' || c = '\x0c' || c = '\r'

/-- Remove one or two leading `=` (used on the reversed string). -/
def dropPadRev (l : List Char) : List Char :=
  match l with
  | [] => []
  | c :: r =>
    if c = '=' then
      match r with
      | [] => r
      | c2 :: r2 => if c2 = '=' then r2 else r
    else c :: r

/-- Strip up to two trailing `=` when the length is a multiple of four. -/
def stripPad (l : List Char) : List Char :=
  if l.length % 4 = 0 then (dropPadRev l.reverse).reverse else l

/-- Six-bit values of all characters, `none` as soon as one is invalid. -/
def readB64Vals : List Char → Option (List Nat)
  | [] => some []
  | c :: r =>
    match b64Val c, readB64Vals r with
    | some v, some vs => some (v :: vs)
    | _, _ => none

/-- `atob` on the base64 text, yielding the byte values of the resulting
binary string; `none` models the thrown `InvalidCharacterError`. -/
def atobBytes (s : String) : Option Bytes :=
  let d1 := s.data.filter (fun c => !(isB64Ws c))
  let d := stripPad d1
  if d.length % 4 = 1 then none
  else
    match readB64Vals d with
    | none => none
    | some sx => some (decodeSextets sx)

/-! ## Source: `utils/rsa.ts` base64 helpers -/

/-- `arrayBufferToBase64(buffer)`: binary string of the bytes, then `btoa`. -/
def arrayBufferToBase64 (l : Bytes) : String := btoaBytes l

/-- `base64ToArrayBuffer(base64)`: `atob`, then char codes as bytes. -/
def base64ToArrayBuffer (s : String) : Option Bytes := atobBytes s

/-- `bytesToBase64(bytes)`: identical byte-level behaviour. -/
def bytesToBase64 (l : Bytes) : String := btoaBytes l

/-- `base64ToBytes(base64)`: identical byte-level behaviour. -/
def base64ToBytes (s : String) : Option Bytes := atobBytes s

/-! ## Hex digests and UTF-8 text encoding

`onFile` renders the SHA-256 digest as
`Array.from(new Uint8Array(digest)).map(b => b.toString(16).padStart(2, '0')).join('')`
and signs `new TextEncoder().encode(shaHex)`.  Hex characters are ASCII, so
the UTF-8 code units coincide with the code points. -/

/-- One lowercase hexadecimal digit (`Number.prototype.toString(16)` digits). -/
def hexDigit (n : Nat) : Char :=
  match n with
  | 0 => '0' | 1 => '1' | 2 => '2' | 3 => '3' | 4 => '4'
  | 5 => '5' | 6 => '6' | 7 => '7' | 8 => '8' | 9 => '9'
  | 10 => 'a' | 11 => 'b' | 12 => 'c' | 13 => 'd' | 14 => 'e' | 15 => 'f'
  | _ => '0'

/-- Hex digits, least significant first, with explicit recursion fuel so
the function computes by kernel reduction. -/
def toHexRevFuel : Nat → Nat → List Char
  | 0, n => [hexDigit (n % 16)]
  | fuel + 1, n =>
    if n < 16 then [hexDigit n] else hexDigit (n % 16) :: toHexRevFuel fuel (n / 16)

/-- Hex digits of `n`, least significant first (nonempty, as in JS).  The
fuel `n` always suffices: a number never has more than `n` hex digits. -/
def toHexRev (n : Nat) : List Char := toHexRevFuel n n

/-- `b.toString(16)` as a character list. -/
def jsHexString (n : Nat) : List Char := (toHexRev n).reverse

/-- `b.toString(16).padStart(2, '0')`. -/
def byteToHex (b : Nat) : List Char :=
  let h := jsHexString b
  List.replicate (2 - h.length) '0' ++ h

/-- The digest byte array rendered as the joined lowercase hex string. -/
def bytesToHex (l : Bytes) : String := ⟨(l.map byteToHex).flatten⟩

/-- `new TextEncoder().encode(s)` for ASCII strings: code points as bytes
(hex digests are ASCII, where UTF-8 is the identity on code points). -/
def textEncodeAscii (s : String) : Bytes := s.data.map Char.toNat

/-! ## The platform cryptographic primitives

The Web Crypto calls (`crypto.subtle.*`) are platform code, not part of the
repository.  Modelled from the spec: §4.1–§4.3 describe RSA-2048 signing
(RSASSA-PKCS1-v1_5/SHA-256), RSA-OAEP key wrap, SHA-256 and AES-256-GCM.
A key pair is an abstract handle, represented by one `Nat` identifying the
pair; an AES key is represented by its raw exported bytes
(`exportAesKeyRaw`/`importAesKeyRaw` are then the identity).  `none` models
a rejected promise (e.g. an OAEP unwrap failure or a GCM tag failure). -/

structure CryptoProvider where
  sha256Fn : Bytes → Bytes
  rsaEncrypt : Nat → Bytes → Bytes
  rsaDecrypt : Nat → Bytes → Option Bytes
  rsaSign : Nat → Bytes → Bytes
  rsaVerify : Nat → Bytes → Bytes → Bool
  aesEncrypt : Bytes → Bytes → Bytes → Bytes
  aesDecrypt : Bytes → Bytes → Bytes → Option Bytes

/-- The functional contract of the primitives, as the spec states it:
round trips succeed on matching key material, outputs are genuine byte
arrays, and an AES-GCM ciphertext carries at least its 16-byte tag. -/
structure LawfulCrypto (C : CryptoProvider) : Prop where
  rsa_roundtrip : ∀ k pt, C.rsaDecrypt k (C.rsaEncrypt k pt) = some pt
  rsa_bytes : ∀ k pt, allBytes pt → allBytes (C.rsaEncrypt k pt)
  rsa_ct_nonempty : ∀ k pt, 0 < (C.rsaEncrypt k pt).length
  sign_verify : ∀ k m, C.rsaVerify k m (C.rsaSign k m) = true
  sign_bytes : ∀ k m, allBytes m → allBytes (C.rsaSign k m)
  aes_roundtrip : ∀ key iv pt, C.aesDecrypt key iv (C.aesEncrypt key iv pt) = some pt
  aes_bytes : ∀ key iv pt, allBytes key → allBytes iv → allBytes pt →
    allBytes (C.aesEncrypt key iv pt)
  aes_ct_len : ∀ key iv pt, 16 ≤ (C.aesEncrypt key iv pt).length
  sha_bytes : ∀ b, allBytes (C.sha256Fn b)

/-! ## Source: `utils/rsa.ts` sign/verify and AES helpers -/

/-- `signBytes(privateKey, data)`: sign, then base64-encode the signature. -/
def signBytes (C : CryptoProvider) (key : Nat) (data : Bytes) : String :=
  arrayBufferToBase64 (C.rsaSign key data)

/-- `verifyBytes(publicKey, data, b64sig)`: base64-decode the signature
(`atob` may throw, modelled by `none`), then `crypto.subtle.verify`. -/
def verifyBytes (C : CryptoProvider) (key : Nat) (data : Bytes) (b64sig : String) :
    Option Bool :=
  (base64ToArrayBuffer b64sig).map (fun sig => C.rsaVerify key data sig)

/-- `aesEncrypt(key, data)` with the freshly drawn 12-byte IV made explicit. -/
def aesEncryptArt (C : CryptoProvider) (key iv data : Bytes) : Bytes × Bytes :=
  (iv, C.aesEncrypt key iv data)

/-- `aesDecrypt(key, iv, ciphertext)`. -/
def aesDecryptArt (C : CryptoProvider) (key iv ct : Bytes) : Option Bytes :=
  C.aesDecrypt key iv ct

/-! ## Source: `App.tsx` — the document event pipeline -/

/-- A record of the event timeline (source: `DocEvent` in `Timeline.tsx`).
`id` is the abstract `crypto.randomUUID()` handle, `createdAt` the
`Date.now()` timestamp. -/
structure DocEvent where
  id : Nat
  filename : String
  size : Nat
  sha256 : String
  signature : Option String
  ciphertext : Option String
  iv : Option String
  wrappedKey : Option String
  decryptedOk : Option Bool
  authentic : Option Bool
  tampered : Option Bool
  createdAt : Nat
deriving DecidableEq

/-- The eight-character replacement tail `'AAAAAAA='`. -/
def tamperTail : List Char := ['A', 'A', 'A', 'A', 'A', 'A', 'A', '=']

/-- The messenger tamper branch (`part_002`, `sendFromAlice`):
`ciphertext.slice(0, -8) + 'AAAAAAA='`, applied unconditionally. -/
def corruptMsg (s : String) : String :=
  ⟨s.data.take (s.data.length - 8) ++ tamperTail⟩

/-- The docsign tamper branch (`App.tsx`, `onFile`): the suffix replacement
guarded by `ciphertext.length > 8`. -/
def corruptDoc (s : String) : String :=
  if 8 < s.length then corruptMsg s else s

/-- `onFile`: digest, sign the hex-string bytes, optionally hybrid-encrypt
(AES-GCM under a fresh key whose raw bytes are RSA-OAEP-wrapped) and
optionally corrupt the base64 ciphertext.  The fresh AES key bytes, the
fresh IV, the UUID and the timestamp are the call's entropy, passed in. -/
def submitEvent (C : CryptoProvider) (sigKey encKey : Nat)
    (encryptToSelf tamper : Bool) (payload : Bytes) (aesKey ivBytes : Bytes)
    (newId : Nat) (filename : String) (size createdAt : Nat) : DocEvent :=
  let shaHex := bytesToHex (C.sha256Fn payload)
  let signature := signBytes C sigKey (textEncodeAscii shaHex)
  if encryptToSelf then
    let aesCT := C.aesEncrypt aesKey ivBytes payload
    let wrapped := C.rsaEncrypt encKey aesKey
    let ctB64 := arrayBufferToBase64 aesCT
    let ctB64 := if tamper ∧ 8 < ctB64.length then corruptMsg ctB64 else ctB64
    { id := newId, filename := filename, size := size, sha256 := shaHex,
      signature := some signature, ciphertext := some ctB64,
      iv := some (arrayBufferToBase64 ivBytes),
      wrappedKey := some (arrayBufferToBase64 wrapped),
      decryptedOk := none, authentic := none, tampered := none,
      createdAt := createdAt }
  else
    { id := newId, filename := filename, size := size, sha256 := shaHex,
      signature := some signature, ciphertext := none, iv := none,
      wrappedKey := none, decryptedOk := none, authentic := none,
      tampered := none, createdAt := createdAt }

/-- `onFile` prepends the new record: `setEvents((prev) => [evt, ...prev])`. -/
def onFile (C : CryptoProvider) (sigKey encKey : Nat)
    (encryptToSelf tamper : Bool) (payload : Bytes) (aesKey ivBytes : Bytes)
    (newId : Nat) (filename : String) (size createdAt : Nat)
    (events : List DocEvent) : List DocEvent :=
  submitEvent C sigKey encKey encryptToSelf tamper payload aesKey ivBytes
    newId filename size createdAt :: events

/-- `onVerify(id)`: find the record (silent early return when absent),
verify over the UTF-8 bytes of the stored hex digest; the `try/catch` maps
a thrown decode error to `authentic: false`. -/
def onVerify (C : CryptoProvider) (sigKey : Nat) (events : List DocEvent)
    (id : Nat) : List DocEvent :=
  match events.findIdx? (fun e => e.id == id) with
  | none => events
  | some idx =>
    match events[idx]? with
    | none => events
    | some e =>
      events.set idx
        { e with authentic := some ((verifyBytes C sigKey
            (textEncodeAscii e.sha256) (e.signature.getD "")).getD false) }

/-- The decryption attempt of `onDecrypt`'s `try` block: unwrap the AES key
through RSA-OAEP, then AES-GCM-decrypt; any `none` models the caught throw. -/
def decryptAttempt (C : CryptoProvider) (encKey : Nat) (ct iv wk : String) :
    Option Bytes := do
  let wkBytes ← base64ToArrayBuffer wk
  let rawAes ← C.rsaDecrypt encKey wkBytes
  let ivBytes ← base64ToArrayBuffer iv
  let ctBytes ← base64ToArrayBuffer ct
  C.aesDecrypt rawAes ivBytes ctBytes

/-- `onDecrypt(id)`: find the record (silent early return when absent or
when any of the three encryption fields is missing/empty — TS truthiness),
then run the attempt; success sets `decryptedOk`, failure additionally
flags `tampered`. -/
def onDecrypt (C : CryptoProvider) (encKey : Nat) (events : List DocEvent)
    (id : Nat) : List DocEvent :=
  match events.findIdx? (fun e => e.id == id) with
  | none => events
  | some idx =>
    match events[idx]? with
    | none => events
    | some e =>
      match e.ciphertext, e.iv, e.wrappedKey with
      | some ct, some iv, some wk =>
        if ct = "" ∨ iv = "" ∨ wk = "" then events
        else
          match decryptAttempt C encKey ct iv wk with
          | some _ => events.set idx { e with decryptedOk := some true }
          | none =>
            events.set idx { e with decryptedOk := some false, tampered := some true }
      | _, _, _ => events

/-- The three at-rest artifacts `{ ciphertext, iv, wrappedKey }` produced by
the encryption branch of `onFile` (no tampering). -/
def hybridEncryptArtifacts (C : CryptoProvider) (encKey : Nat)
    (payload aesKey ivBytes : Bytes) : String × String × String :=
  (arrayBufferToBase64 (C.aesEncrypt aesKey ivBytes payload),
   arrayBufferToBase64 ivBytes,
   arrayBufferToBase64 (C.rsaEncrypt encKey aesKey))

/-- The payload recovered by `onDecrypt`'s decryption chain from the three
artifacts. -/
def hybridDecryptPayload (C : CryptoProvider) (encKey : Nat)
    (a : String × String × String) : Option Bytes :=
  decryptAttempt C encKey a.1 a.2.1 a.2.2

/-! ## A concrete lawful provider

An executable provider used to witness the theorems below on concrete
inputs.  Ciphertexts are self-delimiting escape-encoded packets carrying
the plaintext, IV and key material plus a fixed sentinel block (the stand-in
for the GCM tag), so decryption is an exact parse that fails closed. -/

/-- Escape a byte list: `255` is doubled so a following `[255, 0]` can act
as an unambiguous terminator. -/
def escBody : List Nat → List Nat
  | [] => []
  | b :: t => if b = 255 then 255 :: 255 :: escBody t else b :: escBody t

/-- Escaped body followed by the `[255, 0]` terminator. -/
def encEsc (l : List Nat) : List Nat := escBody l ++ [255, 0]

/-- Parse one escaped packet, returning the decoded list and the remainder. -/
def parseEsc : List Nat → Option (List Nat × List Nat)
  | [] => none
  | b :: rest =>
    if b = 255 then
      match rest with
      | [] => none
      | c :: r =>
        if c = 0 then some ([], r)
        else if c = 255 then (parseEsc r).map (fun p => (255 :: p.1, p.2))
        else none
    else (parseEsc rest).map (fun p => (b :: p.1, p.2))

/-- Concrete AEAD encryption: packets for plaintext, IV and key, then a
16-byte sentinel block. -/
def simpleAesEnc (key iv pt : Bytes) : Bytes :=
  encEsc pt ++ encEsc iv ++ encEsc key ++ List.replicate 16 7

/-- Concrete AEAD decryption: exact parse; any mismatch of IV, key or
sentinel fails closed. -/
def simpleAesDec (key iv c : Bytes) : Option Bytes :=
  match parseEsc c with
  | none => none
  | some (pt, r1) =>
    match parseEsc r1 with
    | none => none
    | some (iv2, r2) =>
      match parseEsc r2 with
      | none => none
      | some (key2, r3) =>
        if iv2 = iv ∧ key2 = key ∧ r3 = List.replicate 16 7 then some pt else none

/-- The concrete provider. -/
def SimpleCrypto : CryptoProvider where
  sha256Fn := fun b => List.replicate 32 (b.foldl (· + ·) 0 % 256)
  rsaEncrypt := fun k pt => k % 255 :: pt
  rsaDecrypt := fun k c =>
    match c with
    | [] => none
    | h :: t => if h = k % 255 then some t else none
  rsaSign := fun k m => k % 255 :: m
  rsaVerify := fun k m s => s == k % 255 :: m
  aesEncrypt := simpleAesEnc
  aesDecrypt := simpleAesDec

/-! ## Messenger variant (`src/unnamed/part_002`) -/

/-- A chat history entry (source: `ChatMessage` of `ChatWindow`, consumed by
`sendFromAlice`). -/
structure ChatMessage where
  id : Nat
  sender : String
  ciphertext : String
  signature : String
  plaintext : Option String
  authentic : Option Bool
  tampered : Option Bool
  timestamp : Nat
deriving DecidableEq

/-- `signString(privateKey, data)` (messenger `utils/rsa`, bundled in
`AgentCard.tsx`): sign the UTF-8 bytes of the message string itself —
no digest is computed on this path — and base64-encode the signature. -/
def signString (C : CryptoProvider) (key : Nat) (message : String) : String :=
  signBytes C key (textEncodeAscii message)

/-- `verifySignature(publicKey, data, base64Signature)` (messenger
`utils/rsa`, bundled in `AgentCard.tsx`): decode the base64 signature
(`atob` may throw, modelled by `none`) and verify it over the UTF-8 bytes
of the message string. -/
def verifySignature (C : CryptoProvider) (key : Nat) (message : String)
    (b64sig : String) : Option Bool :=
  (base64ToArrayBuffer b64sig).map
    (fun sig => C.rsaVerify key (textEncodeAscii message) sig)

/-- `encryptString(publicKey, plaintext)` (messenger `utils/rsa`, bundled
in `AgentCard.tsx`): RSA-OAEP over the UTF-8 message bytes, base64 at
rest. -/
def encryptString (C : CryptoProvider) (key : Nat) (message : String) : String :=
  arrayBufferToBase64 (C.rsaEncrypt key (textEncodeAscii message))

/-- `sendFromAlice` (`part_002`): encrypt to Bob, sign as Alice, optionally
corrupt the base64 ciphertext (unconditional suffix replacement), append. -/
def sendFromAlice (C : CryptoProvider) (bobEncKey aliceSigKey : Nat)
    (message : String) (tamper : Bool) (newId ts : Nat) : ChatMessage :=
  let ciphertext := encryptString C bobEncKey message
  let signature := signString C aliceSigKey message
  let maybeTampered := if tamper then corruptMsg ciphertext else ciphertext
  { id := newId, sender := "Alice", ciphertext := maybeTampered,
    signature := signature, plaintext := none, authentic := none,
    tampered := none, timestamp := ts }

/-! ## Store reachability and frame predicates -/

/-- Event stores reachable through the pipeline operations. -/
inductive Reachable (C : CryptoProvider) : List DocEvent → Prop where
  | nil : Reachable C []
  | submit (sigKey encKey : Nat) (enc tam : Bool) (payload aesKey ivBytes : Bytes)
      (newId : Nat) (fn : String) (size cAt : Nat) {evs : List DocEvent} :
      Reachable C evs →
      Reachable C (onFile C sigKey encKey enc tam payload aesKey ivBytes
        newId fn size cAt evs)
  | verify (sigKey id : Nat) {evs : List DocEvent} :
      Reachable C evs → Reachable C (onVerify C sigKey evs id)
  | decrypt (encKey id : Nat) {evs : List DocEvent} :
      Reachable C evs → Reachable C (onDecrypt C encKey evs id)

/-- The three encryption artifacts are present or absent as a unit. -/
def encUnit (e : DocEvent) : Prop :=
  (e.ciphertext.isSome ∧ e.iv.isSome ∧ e.wrappedKey.isSome) ∨
  (e.ciphertext = none ∧ e.iv = none ∧ e.wrappedKey = none)

/-- All non-outcome fields agree between two records. -/
def preservesCore (e e' : DocEvent) : Prop :=
  e'.id = e.id ∧ e'.filename = e.filename ∧ e'.size = e.size ∧
  e'.sha256 = e.sha256 ∧ e'.signature = e.signature ∧
  e'.ciphertext = e.ciphertext ∧ e'.iv = e.iv ∧
  e'.wrappedKey = e.wrappedKey ∧ e'.createdAt = e.createdAt

/-- A verify call may touch only the `authentic` outcome field. -/
def frameVerify (e e' : DocEvent) : Prop :=
  preservesCore e e' ∧ e'.decryptedOk = e.decryptedOk ∧ e'.tampered = e.tampered

/-- A decrypt call may touch only the `decryptedOk`/`tampered` outcome fields. -/
def frameDecrypt (e e' : DocEvent) : Prop :=
  preservesCore e e' ∧ e'.authentic = e.authentic

/-! ## Lemmas: base64 round trip -/

/-- Every six-bit group produced from genuine bytes is below 64. -/
theorem toSextets_lt (l : Bytes) (h : allBytes l) : ∀ s ∈ toSextets l, s < 64 := by
  induction l using toSextets.induct with
  | case1 => intro s hs; simp [toSextets] at hs
  | case2 a =>
    have ha : a < 256 := h a (by simp)
    intro s hs
    simp only [toSextets, List.mem_cons, List.not_mem_nil, or_false] at hs
    rcases hs with rfl | rfl <;> omega
  | case3 a b =>
    have ha : a < 256 := h a (by simp)
    have hb : b < 256 := h b (by simp)
    intro s hs
    simp only [toSextets, List.mem_cons, List.not_mem_nil, or_false] at hs
    rcases hs with rfl | rfl | rfl <;> omega
  | case4 a b c rest ih =>
    have ha : a < 256 := h a (by simp)
    have hb : b < 256 := h b (by simp)
    have hc : c < 256 := h c (by simp)
    have hrest : allBytes rest := fun x hx => h x (by simp [hx])
    intro s hs
    simp only [toSextets, List.mem_cons] at hs
    rcases hs with rfl | rfl | rfl | rfl | hs
    · omega
    · omega
    · omega
    · omega
    · exact ih hrest s hs

/-- The number of six-bit groups is never 1 modulo 4. -/
theorem toSextets_len_mod (l : Bytes) :
    (toSextets l).length % 4 = 0 ∨ (toSextets l).length % 4 = 2 ∨
      (toSextets l).length % 4 = 3 := by
  induction l using toSextets.induct with
  | case1 => simp [toSextets]
  | case2 a => simp [toSextets]
  | case3 a b => simp [toSextets]
  | case4 a b c rest ih =>
    simp only [toSextets, List.length_cons]
    omega

/-- Decoding the six-bit groups of genuine bytes recovers them. -/
theorem decode_toSextets (l : Bytes) (h : allBytes l) :
    decodeSextets (toSextets l) = l := by
  induction l using toSextets.induct with
  | case1 => rfl
  | case2 a =>
    have ha : a < 256 := h a (by simp)
    simp only [toSextets, decodeSextets, List.cons.injEq, and_true]
    omega
  | case3 a b =>
    have ha : a < 256 := h a (by simp)
    have hb : b < 256 := h b (by simp)
    simp only [toSextets, decodeSextets, List.cons.injEq, and_true]
    omega
  | case4 a b c rest ih =>
    have ha : a < 256 := h a (by simp)
    have hb : b < 256 := h b (by simp)
    have hc : c < 256 := h c (by simp)
    have hrest : allBytes rest := fun x hx => h x (by simp [hx])
    simp only [toSextets, decodeSextets, List.cons.injEq]
    refine ⟨by omega, by omega, by omega, ih hrest⟩

/-- Decoding a base64 character of a six-bit group recovers the group. -/
theorem b64Val_b64Char : ∀ s, s < 64 → b64Val (b64Char s) = some s := by decide

/-- Base64 characters of six-bit groups are not whitespace. -/
theorem b64Char_not_ws : ∀ s, s < 64 → isB64Ws (b64Char s) = false := by decide

/-- Base64 characters of six-bit groups are not the padding character. -/
theorem b64Char_ne_eq : ∀ s, s < 64 → b64Char s ≠ '=' := by decide

/-- Reading back the base64 characters of in-range groups succeeds. -/
theorem readB64Vals_map (sx : List Nat) (h : ∀ s ∈ sx, s < 64) :
    readB64Vals (sx.map b64Char) = some sx := by
  induction sx with
  | nil => rfl
  | cons s t ih =>
    have hs : s < 64 := h s (by simp)
    have ht : ∀ x ∈ t, x < 64 := fun x hx => h x (by simp [hx])
    simp [readB64Vals, b64Val_b64Char s hs, ih ht]

/-- Two leading padding characters are removed. -/
theorem dropPadRev_pad2 (r : List Char) : dropPadRev ('=' :: '=' :: r) = r := rfl

/-- A single leading padding character is removed. -/
theorem dropPadRev_pad1 (c : Char) (r : List Char) (h : ¬(c = '=')) :
    dropPadRev ('=' :: c :: r) = c :: r := by
  simp [dropPadRev, h]

/-- Without a leading padding character nothing is removed. -/
theorem dropPadRev_nopad (c : Char) (r : List Char) (h : ¬(c = '=')) :
    dropPadRev (c :: r) = c :: r := by
  simp [dropPadRev, h]

/-- Stripping the padding appended by the encoder recovers the data chars. -/
theorem stripPad_enc (sx : List Nat) (h : ∀ s ∈ sx, s < 64)
    (hmod : sx.length % 4 ≠ 1) :
    stripPad (sx.map b64Char ++
      List.replicate ((4 - sx.length % 4) % 4) '=') = sx.map b64Char := by
  have hlen : (sx.map b64Char ++
      List.replicate ((4 - sx.length % 4) % 4) '=').length % 4 = 0 := by
    simp only [List.length_append, List.length_map, List.length_replicate]
    omega
  unfold stripPad
  rw [if_pos hlen, List.reverse_append, List.reverse_replicate]
  rcases List.eq_nil_or_concat sx with rfl | ⟨L, s, rfl⟩
  · rfl
  · have hs : s < 64 := h s (by simp)
    have hrev : ((L.concat s).map b64Char).reverse
        = b64Char s :: (L.map b64Char).reverse := by
      simp
    have hne : ¬(b64Char s = '=') := b64Char_ne_eq s hs
    have hcount : (L.concat s).length % 4 = 0 ∨ (L.concat s).length % 4 = 2 ∨
        (L.concat s).length % 4 = 3 := by omega
    rcases hcount with hm | hm | hm <;> rw [hm] <;>
      simp [dropPadRev, List.replicate_succ, hne]

/-- `atobBytes` on an explicit character list. -/
theorem atobBytes_mk (cs : List Char) :
    atobBytes ⟨cs⟩ =
      (if (stripPad (cs.filter (fun c => !(isB64Ws c)))).length % 4 = 1 then none
       else
         match readB64Vals (stripPad (cs.filter (fun c => !(isB64Ws c)))) with
         | none => none
         | some sx => some (decodeSextets sx)) := rfl

/-- Platform round trip: `atob` inverts `btoa` on genuine byte data. -/
theorem atob_btoa (l : Bytes) (h : allBytes l) : atobBytes (btoaBytes l) = some l := by
  have hbound := toSextets_lt l h
  have hmod : (toSextets l).length % 4 ≠ 1 := by
    rcases toSextets_len_mod l with h' | h' | h' <;> omega
  have hfilter : ((toSextets l).map b64Char ++
      List.replicate ((4 - (toSextets l).length % 4) % 4) '=').filter
        (fun c => !(isB64Ws c)) =
      (toSextets l).map b64Char ++
        List.replicate ((4 - (toSextets l).length % 4) % 4) '=' := by
    apply List.filter_eq_self.mpr
    intro c hc
    rcases List.mem_append.mp hc with hc | hc
    · obtain ⟨s, hs, rfl⟩ := List.mem_map.mp hc
      simp [b64Char_not_ws s (hbound s hs)]
    · rw [List.eq_of_mem_replicate hc]
      decide
  rw [show btoaBytes l = (⟨(toSextets l).map b64Char ++
      List.replicate ((4 - (toSextets l).length % 4) % 4) '='⟩ : String) from rfl,
    atobBytes_mk, hfilter, stripPad_enc _ hbound hmod,
    if_neg (by simpa using hmod), readB64Vals_map _ hbound]
  show some (decodeSextets (toSextets l)) = some l
  rw [decode_toSextets l h]

/-! ## Lemmas: the concrete provider is lawful -/

/-- Appending past the terminator associates as the parser expects. -/
theorem encEsc_append (l rest : List Nat) :
    encEsc l ++ rest = escBody l ++ 255 :: 0 :: rest := by
  simp [encEsc]

/-- `parseEsc` on an unescaped leading byte. -/
theorem parseEsc_cons_ne (b : Nat) (rest : List Nat) (hb : ¬(b = 255)) :
    parseEsc (b :: rest) = (parseEsc rest).map (fun p => (b :: p.1, p.2)) := by
  rw [parseEsc.eq_def]
  simp [hb]

/-- Parsing an escaped packet recovers the data and the remainder. -/
theorem parseEsc_escBody (l rest : List Nat) :
    parseEsc (escBody l ++ 255 :: 0 :: rest) = some (l, rest) := by
  induction l with
  | nil => rfl
  | cons b t ih =>
    by_cases hb : b = 255
    · subst hb
      simp [escBody, parseEsc, ih]
    · simp only [escBody, if_neg hb, List.cons_append]
      rw [parseEsc_cons_ne b _ hb, ih]
      rfl

/-- Escaping preserves byte-ness. -/
theorem escBody_bytes (l : List Nat) (h : allBytes l) : allBytes (escBody l) := by
  induction l with
  | nil => intro x hx; simp [escBody] at hx
  | cons b t ih =>
    have hb : b < 256 := h b (by simp)
    have ht : allBytes t := fun x hx => h x (by simp [hx])
    intro x hx
    by_cases h255 : b = 255 <;> simp [escBody, h255] at hx <;>
      rcases hx with rfl | hx
    · omega
    · exact ih ht x hx
    · omega
    · exact ih ht x hx

/-- Byte-ness is closed under append. -/
theorem allBytes_append (l1 l2 : Bytes) (h1 : allBytes l1) (h2 : allBytes l2) :
    allBytes (l1 ++ l2) := by
  intro x hx
  rcases List.mem_append.mp hx with h | h
  · exact h1 x h
  · exact h2 x h

/-- Escaped packets consist of bytes. -/
theorem allBytes_encEsc (l : Bytes) (h : allBytes l) : allBytes (encEsc l) :=
  allBytes_append _ _ (escBody_bytes l h) (by decide)

/-- The concrete AEAD round trip. -/
theorem simpleAes_roundtrip (key iv pt : Bytes) :
    simpleAesDec key iv (simpleAesEnc key iv pt) = some pt := by
  unfold simpleAesEnc simpleAesDec
  rw [List.append_assoc, List.append_assoc, encEsc_append, parseEsc_escBody]
  simp only []
  rw [encEsc_append, parseEsc_escBody]
  simp only []
  rw [encEsc_append]
  have : (255 : Nat) :: 0 :: List.replicate 16 7 =
      255 :: 0 :: List.replicate 16 7 := rfl
  rw [show escBody key ++ 255 :: 0 :: List.replicate 16 7 =
      escBody key ++ 255 :: 0 :: List.replicate 16 7 from rfl, parseEsc_escBody]
  simp

/-- The concrete provider satisfies the platform contract. -/
theorem simpleCrypto_lawful : LawfulCrypto SimpleCrypto := by
  constructor
  · intro k pt
    simp [SimpleCrypto]
  · intro k pt h x hx
    simp [SimpleCrypto] at hx
    rcases hx with rfl | hx
    · omega
    · exact h x hx
  · intro k pt
    simp [SimpleCrypto]
  · intro k m
    simp [SimpleCrypto]
  · intro k m h x hx
    simp [SimpleCrypto] at hx
    rcases hx with rfl | hx
    · omega
    · exact h x hx
  · intro key iv pt
    exact simpleAes_roundtrip key iv pt
  · intro key iv pt hk hiv hpt
    show allBytes (simpleAesEnc key iv pt)
    unfold simpleAesEnc
    refine allBytes_append _ _ ?_ (by decide)
    refine allBytes_append _ _ ?_ (allBytes_encEsc _ hk)
    exact allBytes_append _ _ (allBytes_encEsc _ hpt) (allBytes_encEsc _ hiv)
  · intro key iv pt
    simp [SimpleCrypto, simpleAesEnc]
    omega
  · intro b x hx
    simp [SimpleCrypto] at hx
    omega

/-! ## Lemmas: hex strings, lengths, record lookup -/

/-- Hex digit characters are ASCII. -/
theorem hexDigit_code : ∀ n, (hexDigit n).toNat < 128 := by
  intro n
  unfold hexDigit
  split <;> decide

/-- Every character of a fuelled hex rendering is a hex digit character. -/
theorem toHexRevFuel_chars (fuel : Nat) :
    ∀ (n : Nat), ∀ c ∈ toHexRevFuel fuel n, ∃ m, c = hexDigit m := by
  induction fuel with
  | zero =>
    intro n c hc
    simp [toHexRevFuel] at hc
    exact ⟨n % 16, hc⟩
  | succ fuel ih =>
    intro n c hc
    by_cases h : n < 16
    · simp [toHexRevFuel, h] at hc
      exact ⟨n, hc⟩
    · simp only [toHexRevFuel, if_neg h] at hc
      rcases List.mem_cons.mp hc with rfl | hc
      · exact ⟨n % 16, rfl⟩
      · exact ih _ c hc

/-- Every character of a JS hex rendering is a hex digit character. -/
theorem toHexRev_chars (n : Nat) : ∀ c ∈ toHexRev n, ∃ m, c = hexDigit m :=
  toHexRevFuel_chars n n

/-- Every character of `byteToHex` is a hex digit character. -/
theorem byteToHex_chars (b : Nat) : ∀ c ∈ byteToHex b, ∃ m, c = hexDigit m := by
  intro c hc
  unfold byteToHex jsHexString at hc
  rcases List.mem_append.mp hc with hc | hc
  · rw [List.eq_of_mem_replicate hc]
    exact ⟨0, rfl⟩
  · exact toHexRev_chars b c (List.mem_reverse.mp hc)

/-- Every character of the rendered digest is a hex digit character. -/
theorem bytesToHex_chars (l : Bytes) :
    ∀ c ∈ (bytesToHex l).data, ∃ m, c = hexDigit m := by
  intro c hc
  show ∃ m, c = hexDigit m
  have : c ∈ (l.map byteToHex).flatten := hc
  obtain ⟨cs, hcs, hmem⟩ := List.mem_flatten.mp this
  obtain ⟨b, _, rfl⟩ := List.mem_map.mp hcs
  exact byteToHex_chars b c hmem

/-- The UTF-8 bytes of a rendered digest are genuine bytes. -/
theorem hexBytes (l : Bytes) : allBytes (textEncodeAscii (bytesToHex l)) := by
  intro x hx
  obtain ⟨c, hc, rfl⟩ := List.mem_map.mp hx
  obtain ⟨m, rfl⟩ := bytesToHex_chars l c hc
  have := hexDigit_code m
  omega

/-- Hex digit characters are drawn from the lowercase hex alphabet. -/
theorem hexDigit_mem : ∀ m, hexDigit m ∈ "0123456789abcdef".toList := by
  intro m
  unfold hexDigit
  split <;> decide

/-- Every character of the rendered digest is a lowercase hex character. -/
theorem bytesToHex_lowercase (l : Bytes) :
    ∀ c ∈ (bytesToHex l).data, c ∈ "0123456789abcdef".toList := by
  intro c hc
  obtain ⟨m, rfl⟩ := bytesToHex_chars l c hc
  exact hexDigit_mem m

/-- Base64 signature decoding inverts `signBytes` on genuine signature bytes. -/
theorem sig_roundtrip (C : CryptoProvider) (hC : LawfulCrypto C) (k : Nat)
    (data : Bytes) (hd : allBytes data) :
    base64ToArrayBuffer (signBytes C k data) = some (C.rsaSign k data) :=
  atob_btoa _ (hC.sign_bytes k data hd)

/-- Verifying a fresh signature over the same data succeeds. -/
theorem verifyBytes_of_signBytes (C : CryptoProvider) (hC : LawfulCrypto C)
    (k : Nat) (data : Bytes) (hd : allBytes data) :
    verifyBytes C k data (signBytes C k data) = some true := by
  unfold verifyBytes
  rw [sig_roundtrip C hC k data hd]
  simp [hC.sign_verify]

/-- A successful `findIdx?` points at an element satisfying the test. -/
theorem findIdx?_some_spec {α : Type} (p : α → Bool) (l : List α) (i : Nat)
    (h : l.findIdx? p = some i) : ∃ e, l[i]? = some e ∧ p e = true := by
  induction l generalizing i with
  | nil => simp [List.findIdx?_nil] at h
  | cons x xs ih =>
    rw [List.findIdx?_cons] at h
    by_cases hp : p x = true
    · rw [if_pos hp] at h
      cases h
      exact ⟨x, by simp, hp⟩
    · rw [if_neg hp, List.findIdx?_succ] at h
      obtain ⟨j, hj, rfl⟩ := Option.map_eq_some'.mp h
      obtain ⟨e, he, hpe⟩ := ih j hj
      exact ⟨e, by simpa using he, hpe⟩

/-- Each byte contributes at least one six-bit group. -/
theorem toSextets_length_ge (l : Bytes) : l.length ≤ (toSextets l).length := by
  induction l using toSextets.induct with
  | case1 => simp [toSextets]
  | case2 a => simp [toSextets]
  | case3 a b => simp [toSextets]
  | case4 a b c rest ih =>
    simp only [toSextets, List.length_cons]
    omega

/-- Base64 text is at least as long as the encoded data. -/
theorem btoaBytes_length_ge (l : Bytes) : l.length ≤ (btoaBytes l).length := by
  show l.length ≤ ((toSextets l).map b64Char ++
    List.replicate ((4 - (toSextets l).length % 4) % 4) '=').length
  simp only [List.length_append, List.length_map, List.length_replicate]
  have := toSextets_length_ge l
  omega

/-- Base64 text of nonempty data is nonempty. -/
theorem btoaBytes_ne_empty (l : Bytes) (h : l ≠ []) : btoaBytes l ≠ "" := by
  intro he
  have hdata := congrArg String.data he
  have hnil : ((toSextets l).map b64Char ++
      List.replicate ((4 - (toSextets l).length % 4) % 4) '=') = ([] : List Char) :=
    hdata
  have hmap : (toSextets l).map b64Char = [] := (List.append_eq_nil.mp hnil).1
  have hsx : toSextets l = [] := by
    cases hsx : toSextets l with
    | nil => rfl
    | cons a t => rw [hsx] at hmap; simp at hmap
  have hge := toSextets_length_ge l
  rw [hsx] at hge
  simp at hge
  exact h hge

/-- The character list of a corrupted text. -/
theorem corruptMsg_data (s : String) :
    (corruptMsg s).data = s.data.take (s.data.length - 8) ++ tamperTail := rfl

/-- The corrupted text keeps the length when the input is long enough. -/
theorem corruptMsg_length (s : String) :
    (corruptMsg s).length = s.length - 8 + 8 := by
  show (corruptMsg s).data.length = s.data.length - 8 + 8
  rw [corruptMsg_data, List.length_append, List.length_take]
  have ht : tamperTail.length = 8 := rfl
  omega

/-- The corrupted text is never empty. -/
theorem corruptMsg_ne_empty (s : String) : corruptMsg s ≠ "" := by
  intro he
  have h := congrArg String.length he
  rw [corruptMsg_length] at h
  have h0 : ("" : String).length = 0 := rfl
  omega

/-! ## Claim theorems -/

/-- C10: for every byte sequence `b`, decoding the base64 encoding of `b`
recovers exactly `b`, for both helper pairs of `utils/rsa.ts`, so the
textual at-rest form of signature, ciphertext, IV and wrapped key is
lossless. -/
theorem claim10_base64_roundtrip (b : Bytes) (h : allBytes b) :
    base64ToBytes (bytesToBase64 b) = some b ∧
    base64ToArrayBuffer (arrayBufferToBase64 b) = some b :=
  ⟨atob_btoa b h, atob_btoa b h⟩

theorem claim10_witness :
    base64ToBytes (bytesToBase64 [0, 1, 127, 128, 250, 255])
        = some [0, 1, 127, 128, 250, 255] ∧
    base64ToArrayBuffer (arrayBufferToBase64 [0, 1, 127, 128, 250, 255])
        = some [0, 1, 127, 128, 250, 255] :=
  claim10_base64_roundtrip [0, 1, 127, 128, 250, 255] (by decide)

/-- C8 counterexample: the messenger variant's tamper corruption
(`part_002`, applied with no length guard) maps the four-character base64
input `"AA=="` — shorter than the eight-character corruption window — to
`"AAAAAAA="` instead of returning it unchanged, so the claimed universal
no-op floor fails on that code path. -/
theorem claim8_counterexample :
    corruptMsg "AA==" = "AAAAAAA=" ∧ ("AA==" : String).length < 8 ∧
      corruptMsg "AA==" ≠ "AA==" := by
  refine ⟨rfl, by decide, by decide⟩

/-- C8 (amended): the docsign variant's guarded corruption satisfies the
contract — same encoded length with only the fixed eight-character suffix
replaced when the input is long enough, and the unchanged input otherwise —
while the messenger variant's unguarded corruption preserves the length
only for inputs of at least eight characters. -/
theorem claim8_corrupt_amended (s : String) :
    (8 < s.length →
      (corruptDoc s).length = s.length ∧
      (corruptDoc s).data = s.data.take (s.length - 8) ++ tamperTail) ∧
    (s.length ≤ 8 → corruptDoc s = s) ∧
    (8 ≤ s.length → (corruptMsg s).length = s.length) := by
  refine ⟨?_, ?_, ?_⟩
  · intro hgt
    unfold corruptDoc
    rw [if_pos hgt]
    exact ⟨by rw [corruptMsg_length]; omega, corruptMsg_data s⟩
  · intro hle
    unfold corruptDoc
    rw [if_neg (by omega)]
  · intro hge
    rw [corruptMsg_length]
    omega

theorem claim8_witness :
    ((corruptDoc "ABCDEFGHIJKL").length = ("ABCDEFGHIJKL" : String).length ∧
      (corruptDoc "ABCDEFGHIJKL").data =
        ("ABCDEFGHIJKL" : String).data.take (("ABCDEFGHIJKL" : String).length - 8) ++
          tamperTail) ∧
    corruptDoc "AB" = "AB" :=
  ⟨(claim8_corrupt_amended "ABCDEFGHIJKL").1 (by decide),
   (claim8_corrupt_amended "AB").2.1 (by decide)⟩

/-- C5 counterexample: on the structurally invalid, non-base64 signature
string `"!"`, `verifyBytes` does not return a boolean: the `atob` inside
`base64ToArrayBuffer` throws (modelled by `none`), so the call rejects
instead of returning `false`. -/
theorem claim5_counterexample :
    verifyBytes SimpleCrypto 0 [] "!" = none ∧
      verifyBytes SimpleCrypto 0 [] "!" ≠ some false := by
  refine ⟨rfl, by decide⟩

/-- C5 (amended): `verifyBytes` returns a boolean for every signature
string that decodes as base64 — a wrong-but-well-formed signature yields
`false`, not an error — but propagates the base64-decode exception on
non-base64 input; the pipeline's `onVerify` catches that exception and
records the outcome as `authentic: false` rather than crashing. -/
theorem claim5_verify_amended (C : CryptoProvider) (k : Nat) (data : Bytes)
    (s : String) :
    (∀ bs, base64ToArrayBuffer s = some bs →
      verifyBytes C k data s = some (C.rsaVerify k data bs)) ∧
    (base64ToArrayBuffer s = none → verifyBytes C k data s = none) ∧
    (∀ e : DocEvent, e.id = k →
      base64ToArrayBuffer (e.signature.getD "") = none →
      onVerify C k [e] k = [{ e with authentic := some false }]) := by
  refine ⟨?_, ?_, ?_⟩
  · intro bs hbs
    unfold verifyBytes
    rw [hbs]
    rfl
  · intro hnone
    unfold verifyBytes
    rw [hnone]
    rfl
  · intro e hid hnone
    simp [onVerify, List.findIdx?_cons, hid, verifyBytes, hnone]

/-- C6 counterexample: calling `onVerify`/`onDecrypt` with an id absent
from the event store returns the store unchanged with no error signal of
any kind — the early `return` is a silent no-op, not a `RecordNotFound`
rejection surfaced to the caller. -/
theorem claim6_counterexample :
    onVerify SimpleCrypto 0
        [submitEvent SimpleCrypto 0 0 false false [] [] [] 1 "doc" 0 0] 2 =
      [submitEvent SimpleCrypto 0 0 false false [] [] [] 1 "doc" 0 0] ∧
    onDecrypt SimpleCrypto 0
        [submitEvent SimpleCrypto 0 0 false false [] [] [] 1 "doc" 0 0] 2 =
      [submitEvent SimpleCrypto 0 0 false false [] [] [] 1 "doc" 0 0] :=
  ⟨rfl, rfl⟩

/-- C6 (amended): for every record id not present in the event store, both
the verify-by-id and the decrypt-by-id operation return with the store
unchanged and perform no cryptographic work; the unknown-id case is
silently ignored (an early return), not surfaced as a rejected operation. -/
theorem claim6_unknown_id_amended (C : CryptoProvider) (sigKey encKey : Nat)
    (events : List DocEvent) (id : Nat) (h : ∀ e ∈ events, e.id ≠ id) :
    onVerify C sigKey events id = events ∧
      onDecrypt C encKey events id = events := by
  have hfind : events.findIdx? (fun e => e.id == id) = none :=
    List.findIdx?_eq_none_iff.mpr (fun e he => by simpa using h e he)
  constructor
  · unfold onVerify
    rw [hfind]
  · unfold onDecrypt
    rw [hfind]

theorem claim6_witness :
    onVerify SimpleCrypto 3
        [submitEvent SimpleCrypto 3 4 true false [1, 2] [5] [6] 1 "doc" 2 0] 9 =
      [submitEvent SimpleCrypto 3 4 true false [1, 2] [5] [6] 1 "doc" 2 0] ∧
    onDecrypt SimpleCrypto 4
        [submitEvent SimpleCrypto 3 4 true false [1, 2] [5] [6] 1 "doc" 2 0] 9 =
      [submitEvent SimpleCrypto 3 4 true false [1, 2] [5] [6] 1 "doc" 2 0] :=
  claim6_unknown_id_amended SimpleCrypto 3 4 _ 9 (by decide)

/-- C3: for every payload and signer key pair, verifying the signature
produced by `signBytes` over the digest encoding of the payload with the
same pair via `verifyBytes` returns `true` (as `some true`, i.e. a
fulfilled promise). -/
theorem claim3_sign_verify_roundtrip (C : CryptoProvider) (hC : LawfulCrypto C)
    (k : Nat) (payload : Bytes) :
    verifyBytes C k (textEncodeAscii (bytesToHex (C.sha256Fn payload)))
      (signBytes C k (textEncodeAscii (bytesToHex (C.sha256Fn payload))))
      = some true :=
  verifyBytes_of_signBytes C hC k _ (hexBytes _)

theorem claim3_witness :
    verifyBytes SimpleCrypto 5
      (textEncodeAscii (bytesToHex (SimpleCrypto.sha256Fn [1, 2, 3])))
      (signBytes SimpleCrypto 5
        (textEncodeAscii (bytesToHex (SimpleCrypto.sha256Fn [1, 2, 3]))))
      = some true :=
  claim3_sign_verify_roundtrip SimpleCrypto simpleCrypto_lawful 5 [1, 2, 3]

/-- C2: for every payload and valid encryption key pair, hybrid decryption
with the private key applied to the three artifacts produced by hybrid
encryption with the public key (base64 AES-GCM ciphertext, IV, and
RSA-OAEP-wrapped fresh AES key) recovers exactly the payload bytes. -/
theorem claim2_hybrid_roundtrip (C : CryptoProvider) (hC : LawfulCrypto C)
    (k : Nat) (payload aesKey ivBytes : Bytes) (hp : allBytes payload)
    (hk : allBytes aesKey) (hiv : allBytes ivBytes) :
    hybridDecryptPayload C k (hybridEncryptArtifacts C k payload aesKey ivBytes)
      = some payload := by
  unfold hybridDecryptPayload hybridEncryptArtifacts decryptAttempt
  simp only [base64ToArrayBuffer, arrayBufferToBase64,
    atob_btoa _ (hC.rsa_bytes k aesKey hk),
    atob_btoa _ hiv,
    atob_btoa _ (hC.aes_bytes aesKey ivBytes payload hk hiv hp)]
  simp [hC.rsa_roundtrip, hC.aes_roundtrip]

theorem claim2_witness :
    hybridDecryptPayload SimpleCrypto 3
      (hybridEncryptArtifacts SimpleCrypto 3 [104, 101, 108, 108, 111]
        (List.replicate 32 9) (List.replicate 12 1))
      = some [104, 101, 108, 108, 111] :=
  claim2_hybrid_roundtrip SimpleCrypto simpleCrypto_lawful 3
    [104, 101, 108, 108, 111] (List.replicate 32 9) (List.replicate 12 1)
    (by decide) (by decide) (by decide)

/-! ## Lemmas: record shapes and single-record operations -/

/-- The record id assigned on submission. -/
theorem submitEvent_id (C : CryptoProvider) (sigKey encKey : Nat)
    (enc tam : Bool) (payload aesKey ivBytes : Bytes) (newId : Nat)
    (fn : String) (size cAt : Nat) :
    (submitEvent C sigKey encKey enc tam payload aesKey ivBytes newId fn
      size cAt).id = newId := by
  cases enc <;> rfl

/-- The stored digest of a submitted record. -/
theorem submitEvent_sha256 (C : CryptoProvider) (sigKey encKey : Nat)
    (enc tam : Bool) (payload aesKey ivBytes : Bytes) (newId : Nat)
    (fn : String) (size cAt : Nat) :
    (submitEvent C sigKey encKey enc tam payload aesKey ivBytes newId fn
      size cAt).sha256 = bytesToHex (C.sha256Fn payload) := by
  cases enc <;> rfl

/-- The stored signature of a submitted record. -/
theorem submitEvent_signature (C : CryptoProvider) (sigKey encKey : Nat)
    (enc tam : Bool) (payload aesKey ivBytes : Bytes) (newId : Nat)
    (fn : String) (size cAt : Nat) :
    (submitEvent C sigKey encKey enc tam payload aesKey ivBytes newId fn
      size cAt).signature
      = some (signBytes C sigKey
          (textEncodeAscii (bytesToHex (C.sha256Fn payload)))) := by
  cases enc <;> rfl

/-- `onVerify` on a store holding exactly the addressed record. -/
theorem onVerify_single (C : CryptoProvider) (k : Nat) (e : DocEvent)
    (id : Nat) (hid : e.id = id) :
    onVerify C k [e] id =
      [{ e with authentic := some ((verifyBytes C k (textEncodeAscii e.sha256)
          (e.signature.getD "")).getD false) }] := by
  unfold onVerify
  rw [List.findIdx?_cons]
  simp [hid]

/-- C1 counterexample: the messenger's `sendFromAlice` signs the raw UTF-8
message bytes, not the digest-hex bytes: on the message `"hi"` the stored
signature equals the signature over the raw payload bytes and differs from
the signature over the UTF-8 bytes of the lowercase hex digest, and the
two signed quantities themselves differ — refuting the claim's "never the
raw payload bytes" on that cited source path. -/
theorem claim1_counterexample :
    (sendFromAlice SimpleCrypto 7 8 "hi" false 2 3).signature
        = signBytes SimpleCrypto 8 (textEncodeAscii "hi") ∧
    (sendFromAlice SimpleCrypto 7 8 "hi" false 2 3).signature
        ≠ signBytes SimpleCrypto 8
            (textEncodeAscii (bytesToHex
              (SimpleCrypto.sha256Fn (textEncodeAscii "hi")))) ∧
    textEncodeAscii "hi"
        ≠ textEncodeAscii (bytesToHex
            (SimpleCrypto.sha256Fn (textEncodeAscii "hi"))) :=
  ⟨rfl, by decide, by decide⟩

/-- C1 (amended): in the docsign pipeline, for every submitted payload the
sign step signs the UTF-8 bytes of the payload's lowercase hex digest
string — the stored digest is that hex string, built from lowercase hex
characters only, and the stored signature is over exactly its encoded
bytes — and the verify path re-encodes the stored digest identically, so
verifying the fresh record succeeds; the messenger variant's send path
instead signs the raw UTF-8 message bytes directly, and its verify side
checks the same raw-message quantity, so sign and verify still agree
within that variant. -/
theorem claim1_sign_digest_hex (C : CryptoProvider) (hC : LawfulCrypto C)
    (sigKey encKey : Nat) (enc tam : Bool) (payload aesKey ivBytes : Bytes)
    (newId : Nat) (fn : String) (size cAt : Nat)
    (bobEnc aliceSig : Nat) (message : String) (tam2 : Bool) (msgId ts : Nat) :
    (submitEvent C sigKey encKey enc tam payload aesKey ivBytes newId fn
        size cAt).sha256 = bytesToHex (C.sha256Fn payload) ∧
    (submitEvent C sigKey encKey enc tam payload aesKey ivBytes newId fn
        size cAt).signature
        = some (signBytes C sigKey
            (textEncodeAscii (bytesToHex (C.sha256Fn payload)))) ∧
    (∀ c ∈ (bytesToHex (C.sha256Fn payload)).data,
        c ∈ "0123456789abcdef".toList) ∧
    onVerify C sigKey
        [submitEvent C sigKey encKey enc tam payload aesKey ivBytes newId fn
          size cAt] newId
        = [{ submitEvent C sigKey encKey enc tam payload aesKey ivBytes newId
              fn size cAt with authentic := some true }] ∧
    (sendFromAlice C bobEnc aliceSig message tam2 msgId ts).signature
        = signBytes C aliceSig (textEncodeAscii message) ∧
    (allBytes (textEncodeAscii message) →
      verifySignature C aliceSig message (signString C aliceSig message)
        = some true) := by
  refine ⟨submitEvent_sha256 C sigKey encKey enc tam payload aesKey ivBytes
      newId fn size cAt,
    submitEvent_signature C sigKey encKey enc tam payload aesKey ivBytes
      newId fn size cAt,
    bytesToHex_lowercase _, ?_, rfl, ?_⟩
  · rw [onVerify_single C sigKey _ newId
      (submitEvent_id C sigKey encKey enc tam payload aesKey ivBytes newId fn
        size cAt),
      submitEvent_sha256 C sigKey encKey enc tam payload aesKey ivBytes newId
        fn size cAt,
      submitEvent_signature C sigKey encKey enc tam payload aesKey ivBytes
        newId fn size cAt]
    simp [verifyBytes_of_signBytes C hC sigKey _ (hexBytes _),
      submitEvent_sha256, submitEvent_signature]
  · intro hmsg
    unfold verifySignature signString
    rw [show base64ToArrayBuffer (signBytes C aliceSig (textEncodeAscii message))
        = some (C.rsaSign aliceSig (textEncodeAscii message)) from
      sig_roundtrip C hC aliceSig _ hmsg]
    simp [hC.sign_verify]

theorem claim1_witness :
    onVerify SimpleCrypto 3
        [submitEvent SimpleCrypto 3 4 true false [1, 2] [5] [6] 1 "doc" 2 0] 1
      = [{ submitEvent SimpleCrypto 3 4 true false [1, 2] [5] [6] 1 "doc" 2 0
            with authentic := some true }] ∧
    verifySignature SimpleCrypto 8 "hi" (signString SimpleCrypto 8 "hi")
      = some true :=
  ⟨(claim1_sign_digest_hex SimpleCrypto simpleCrypto_lawful 3 4 true false
      [1, 2] [5] [6] 1 "doc" 2 0 7 8 "hi" false 2 3).2.2.2.1,
   (claim1_sign_digest_hex SimpleCrypto simpleCrypto_lawful 3 4 true false
      [1, 2] [5] [6] 1 "doc" 2 0 7 8 "hi" false 2 3).2.2.2.2.2 (by decide)⟩

/-- The record produced by an encrypted, tampered submission whose base64
ciphertext exceeds the corruption window. -/
theorem submitEvent_tampered (C : CryptoProvider) (sigKey encKey : Nat)
    (payload aesKey ivBytes : Bytes) (newId : Nat) (fn : String)
    (size cAt : Nat)
    (hlen : 8 < (arrayBufferToBase64 (C.aesEncrypt aesKey ivBytes payload)).length) :
    submitEvent C sigKey encKey true true payload aesKey ivBytes newId fn
        size cAt =
      { id := newId, filename := fn, size := size,
        sha256 := bytesToHex (C.sha256Fn payload),
        signature := some (signBytes C sigKey
          (textEncodeAscii (bytesToHex (C.sha256Fn payload)))),
        ciphertext := some (corruptMsg (arrayBufferToBase64
          (C.aesEncrypt aesKey ivBytes payload))),
        iv := some (arrayBufferToBase64 ivBytes),
        wrappedKey := some (arrayBufferToBase64 (C.rsaEncrypt encKey aesKey)),
        decryptedOk := none, authentic := none, tampered := none,
        createdAt := cAt } := by
  simp [submitEvent, hlen]

/-- `onDecrypt` on a store holding exactly the addressed encrypted record. -/
theorem onDecrypt_single_enc (C : CryptoProvider) (k : Nat) (e : DocEvent)
    (id : Nat) (hid : e.id = id) (ct iv wk : String)
    (hct : e.ciphertext = some ct) (hiv : e.iv = some iv)
    (hwk : e.wrappedKey = some wk) (hne : ¬(ct = "" ∨ iv = "" ∨ wk = "")) :
    onDecrypt C k [e] id =
      match decryptAttempt C k ct iv wk with
      | some _ => [{ e with decryptedOk := some true }]
      | none => [{ e with decryptedOk := some false, tampered := some true }] := by
  unfold onDecrypt
  rw [List.findIdx?_cons]
  cases hatt : decryptAttempt C k ct iv wk with
  | none => simp [hid, hct, hiv, hwk, hne, hatt]
  | some pt => simp [hid, hct, hiv, hwk, hne, hatt]

/-- C4: for a payload submitted with encryption requested and the tamper
flag set, a later decrypt call yields the failed outcome (given that the
authenticated cipher rejects the corrupted ciphertext, which holds with
overwhelming probability and is the stated purpose of the corruption),
while a later verify call on the same record yields authentic: the
signature covers the digest of the original payload, independent of the
ciphertext. -/
theorem claim4_tamper_decoupling (C : CryptoProvider) (hC : LawfulCrypto C)
    (sigKey encKey : Nat) (payload aesKey ivBytes : Bytes)
    (hk : allBytes aesKey) (hiv : allBytes ivBytes)
    (hivlen : ivBytes.length = 12) (newId : Nat) (fn : String)
    (size cAt : Nat)
    (hT : (base64ToArrayBuffer (corruptMsg (arrayBufferToBase64
            (C.aesEncrypt aesKey ivBytes payload)))).bind
          (C.aesDecrypt aesKey ivBytes) = none) :
    onDecrypt C encKey [submitEvent C sigKey encKey true true payload aesKey
        ivBytes newId fn size cAt] newId
      = [{ submitEvent C sigKey encKey true true payload aesKey ivBytes newId
            fn size cAt with decryptedOk := some false, tampered := some true }] ∧
    onVerify C sigKey [submitEvent C sigKey encKey true true payload aesKey
        ivBytes newId fn size cAt] newId
      = [{ submitEvent C sigKey encKey true true payload aesKey ivBytes newId
            fn size cAt with authentic := some true }] := by
  have hctlen : 8 < (arrayBufferToBase64
      (C.aesEncrypt aesKey ivBytes payload)).length := by
    have h1 := hC.aes_ct_len aesKey ivBytes payload
    have h2 := btoaBytes_length_ge (C.aesEncrypt aesKey ivBytes payload)
    show 8 < (btoaBytes (C.aesEncrypt aesKey ivBytes payload)).length
    omega
  have hrec := submitEvent_tampered C sigKey encKey payload aesKey ivBytes
    newId fn size cAt hctlen
  constructor
  · rw [hrec]
    rw [onDecrypt_single_enc C encKey _ newId rfl _ _ _ rfl rfl rfl ?hne]
    case hne =>
      push_neg
      refine ⟨corruptMsg_ne_empty _, btoaBytes_ne_empty _ ?_, btoaBytes_ne_empty _ ?_⟩
      · intro h
        rw [h] at hivlen
        simp at hivlen
      · have hn := hC.rsa_ct_nonempty encKey aesKey
        intro h
        rw [h] at hn
        simp at hn
    have hatt : decryptAttempt C encKey
        (corruptMsg (arrayBufferToBase64 (C.aesEncrypt aesKey ivBytes payload)))
        (arrayBufferToBase64 ivBytes)
        (arrayBufferToBase64 (C.rsaEncrypt encKey aesKey)) = none := by
      unfold decryptAttempt
      simp only [base64ToArrayBuffer, arrayBufferToBase64,
        atob_btoa _ (hC.rsa_bytes encKey aesKey hk), atob_btoa _ hiv]
      simp only [Option.bind_eq_bind, Option.some_bind, hC.rsa_roundtrip]
      exact hT
    rw [hatt]
  · rw [hrec, onVerify_single C sigKey _ newId rfl]
    simp [verifyBytes_of_signBytes C hC sigKey _ (hexBytes _)]

theorem claim4_witness :
    onDecrypt SimpleCrypto 4
        [submitEvent SimpleCrypto 3 4 true true [1, 2, 3] [9]
          (List.replicate 12 1) 1 "doc" 3 0] 1
      = [{ submitEvent SimpleCrypto 3 4 true true [1, 2, 3] [9]
            (List.replicate 12 1) 1 "doc" 3 0
            with decryptedOk := some false, tampered := some true }] ∧
    onVerify SimpleCrypto 3
        [submitEvent SimpleCrypto 3 4 true true [1, 2, 3] [9]
          (List.replicate 12 1) 1 "doc" 3 0] 1
      = [{ submitEvent SimpleCrypto 3 4 true true [1, 2, 3] [9]
            (List.replicate 12 1) 1 "doc" 3 0
            with authentic := some true }] :=
  claim4_tamper_decoupling SimpleCrypto simpleCrypto_lawful 3 4 [1, 2, 3] [9]
    (List.replicate 12 1) (by decide) (by decide) (by decide)
    1 "doc" 3 0 (by decide)

/-! ## Lemmas: store invariants and frames -/

/-- Membership in a store after a set update reduces to the old store. -/
theorem encUnit_set (evs : List DocEvent) (idx : Nat) (e0 newE : DocEvent)
    (hget : evs[idx]? = some e0) (h : ∀ e ∈ evs, encUnit e)
    (hnew : encUnit e0 → encUnit newE) :
    ∀ e ∈ evs.set idx newE, encUnit e := by
  intro e he
  rcases List.mem_or_eq_of_mem_set he with he | rfl
  · exact h e he
  · exact hnew (h e0 (List.getElem?_mem hget))

/-- Verify outcomes keep the three encryption artifacts intact. -/
theorem encUnit_onVerify (C : CryptoProvider) (k : Nat) (evs : List DocEvent)
    (id : Nat) (h : ∀ e ∈ evs, encUnit e) :
    ∀ e ∈ onVerify C k evs id, encUnit e := by
  unfold onVerify
  split
  · exact h
  split
  · exact h
  next e0 hget => exact encUnit_set evs _ e0 _ hget h (fun hu => hu)

/-- Decrypt outcomes keep the three encryption artifacts intact. -/
theorem encUnit_onDecrypt (C : CryptoProvider) (k : Nat) (evs : List DocEvent)
    (id : Nat) (h : ∀ e ∈ evs, encUnit e) :
    ∀ e ∈ onDecrypt C k evs id, encUnit e := by
  unfold onDecrypt
  split
  · exact h
  split
  · exact h
  next e0 hget =>
    split
    case h_2 => exact h
    next ct iv wk hct hiv hwk =>
      split
      · exact h
      split
      · exact encUnit_set evs _ e0 _ hget h (fun hu => hu)
      · exact encUnit_set evs _ e0 _ hget h (fun hu => hu)

/-- The frame relations hold reflexively. -/
theorem frameVerify_refl (e : DocEvent) : frameVerify e e := by
  simp [frameVerify, preservesCore]

theorem frameDecrypt_refl (e : DocEvent) : frameDecrypt e e := by
  simp [frameDecrypt, preservesCore]

/-- Overwriting `authentic` respects the verify frame. -/
theorem frameVerify_update (e : DocEvent) (b : Option Bool) :
    frameVerify e { e with authentic := b } := by
  simp [frameVerify, preservesCore]

/-- Setting `decryptedOk` on success respects the decrypt frame. -/
theorem frameDecrypt_ok (e : DocEvent) :
    frameDecrypt e { e with decryptedOk := some true } := by
  simp [frameDecrypt, preservesCore]

/-- Setting `decryptedOk`/`tampered` on failure respects the decrypt frame. -/
theorem frameDecrypt_fail (e : DocEvent) :
    frameDecrypt e { e with decryptedOk := some false, tampered := some true } := by
  simp [frameDecrypt, preservesCore]

/-- An unchanged store is framed pointwise. -/
theorem frame_pointwise_refl (events : List DocEvent) (id : Nat)
    (P : DocEvent → DocEvent → Prop) (hrefl : ∀ e, P e e) :
    ∀ (j : Nat) (e e' : DocEvent), events[j]? = some e → events[j]? = some e' →
      P e e' ∧ (e.id ≠ id → e' = e) := by
  intro j e e' h1 h2
  have he : e' = e := by
    rw [h1] at h2
    exact (Option.some.inj h2).symm
  subst he
  exact ⟨hrefl _, fun _ => rfl⟩

/-- Updating the found record frames the store pointwise. -/
theorem frame_pointwise_set (events : List DocEvent) (id idx : Nat)
    (e0 newE : DocEvent) (hget : events[idx]? = some e0) (hid0 : e0.id = id)
    (P : DocEvent → DocEvent → Prop) (hrefl : ∀ e, P e e) (hupd : P e0 newE) :
    ∀ (j : Nat) (e e' : DocEvent), events[j]? = some e →
      (events.set idx newE)[j]? = some e' → P e e' ∧ (e.id ≠ id → e' = e) := by
  intro j e e' h1 h2
  by_cases hji : j = idx
  · subst hji
    have hidx : j < events.length := by
      by_contra hcon
      push_neg at hcon
      rw [List.getElem?_eq_none hcon] at hget
      cases hget
    rw [List.getElem?_set_self hidx] at h2
    have he : e = e0 := by
      rw [hget] at h1
      exact (Option.some.inj h1).symm
    have he' : e' = newE := (Option.some.inj h2).symm
    subst he
    subst he'
    exact ⟨hupd, fun hne => absurd hid0 hne⟩
  · rw [List.getElem?_set_ne (fun h => hji h.symm)] at h2
    have he : e' = e := by
      rw [h1] at h2
      exact (Option.some.inj h2).symm
    subst he
    exact ⟨hrefl _, fun _ => rfl⟩

/-- C7: the fields `ciphertext`, `iv` and `wrappedKey` of a submitted
record are present exactly when encryption was requested, and in every
store reachable through the pipeline operations every record has the three
fields present or absent as a unit — no reachable record carries a proper
non-empty subset of them. -/
theorem claim7_enc_unit (C : CryptoProvider) :
    (∀ (sigKey encKey : Nat) (enc tam : Bool) (payload aesKey ivBytes : Bytes)
        (newId : Nat) (fn : String) (size cAt : Nat),
      (submitEvent C sigKey encKey enc tam payload aesKey ivBytes newId fn
          size cAt).ciphertext.isSome = enc ∧
      (submitEvent C sigKey encKey enc tam payload aesKey ivBytes newId fn
          size cAt).iv.isSome = enc ∧
      (submitEvent C sigKey encKey enc tam payload aesKey ivBytes newId fn
          size cAt).wrappedKey.isSome = enc) ∧
    (∀ evs, Reachable C evs → ∀ e ∈ evs, encUnit e) := by
  constructor
  · intro sigKey encKey enc tam payload aesKey ivBytes newId fn size cAt
    cases enc <;> simp [submitEvent]
  · intro evs hr
    induction hr with
    | nil =>
      intro e he
      simp at he
    | submit sigKey encKey enc tam payload aesKey ivBytes newId fn size cAt hprev ih =>
      intro e he
      rcases List.mem_cons.mp he with rfl | he
      · cases enc <;> simp [submitEvent, encUnit]
      · exact ih e he
    | verify sigKey id hprev ih => exact encUnit_onVerify C sigKey _ id ih
    | decrypt encKey id hprev ih => exact encUnit_onDecrypt C encKey _ id ih

theorem claim7_witness :
    ((submitEvent SimpleCrypto 0 0 true false [1] [2] [3] 1 "doc" 1 0).ciphertext.isSome
        = true ∧
     (submitEvent SimpleCrypto 0 0 true false [1] [2] [3] 1 "doc" 1 0).iv.isSome
        = true ∧
     (submitEvent SimpleCrypto 0 0 true false [1] [2] [3] 1 "doc" 1 0).wrappedKey.isSome
        = true) ∧
    (∀ e ∈ onFile SimpleCrypto 0 0 true false [1] [2] [3] 1 "doc" 1 0 [],
      encUnit e) :=
  ⟨(claim7_enc_unit SimpleCrypto).1 0 0 true false [1] [2] [3] 1 "doc" 1 0,
   (claim7_enc_unit SimpleCrypto).2 _
     (Reachable.submit 0 0 true false [1] [2] [3] 1 "doc" 1 0 Reachable.nil)⟩

/-- C9: a verify call changes at most the `authentic` outcome field of the
record whose id matches, and a decrypt call at most the
`decryptedOk`/`tampered` outcome fields; the store length, every
non-outcome field of the touched record (id, digest, signature,
ciphertext, iv, wrappedKey, createdAt, filename, size) and every record
with a different id are left unchanged. -/
theorem claim9_frame (C : CryptoProvider) (sigKey encKey : Nat)
    (events : List DocEvent) (id : Nat) :
    ((onVerify C sigKey events id).length = events.length ∧
      ∀ (j : Nat) (e e' : DocEvent), events[j]? = some e →
        (onVerify C sigKey events id)[j]? = some e' →
        frameVerify e e' ∧ (e.id ≠ id → e' = e)) ∧
    ((onDecrypt C encKey events id).length = events.length ∧
      ∀ (j : Nat) (e e' : DocEvent), events[j]? = some e →
        (onDecrypt C encKey events id)[j]? = some e' →
        frameDecrypt e e' ∧ (e.id ≠ id → e' = e)) := by
  constructor
  · rcases hfind : events.findIdx? (fun e => e.id == id) with _ | idx
    · simp only [onVerify, hfind]
      exact ⟨by trivial, frame_pointwise_refl events id frameVerify frameVerify_refl⟩
    · rcases hget : events[idx]? with _ | e0
      · simp only [onVerify, hfind, hget]
        exact ⟨by trivial, frame_pointwise_refl events id frameVerify frameVerify_refl⟩
      · obtain ⟨e1, hge1, hpe⟩ := findIdx?_some_spec _ _ _ hfind
        have he1 : e0 = e1 := by
          rw [hget] at hge1
          exact Option.some.inj hge1
        rw [← he1] at hpe
        have hid0 : e0.id = id := by simpa using hpe
        simp only [onVerify, hfind, hget]
        exact ⟨List.length_set events idx _,
          frame_pointwise_set events id idx e0 _ hget hid0 frameVerify
            frameVerify_refl (frameVerify_update e0 _)⟩
  · rcases hfind : events.findIdx? (fun e => e.id == id) with _ | idx
    · simp only [onDecrypt, hfind]
      exact ⟨by trivial, frame_pointwise_refl events id frameDecrypt frameDecrypt_refl⟩
    · rcases hget : events[idx]? with _ | e0
      · simp only [onDecrypt, hfind, hget]
        exact ⟨by trivial, frame_pointwise_refl events id frameDecrypt frameDecrypt_refl⟩
      · obtain ⟨e1, hge1, hpe⟩ := findIdx?_some_spec _ _ _ hfind
        have he1 : e0 = e1 := by
          rw [hget] at hge1
          exact Option.some.inj hge1
        rw [← he1] at hpe
        have hid0 : e0.id = id := by simpa using hpe
        rcases hct : e0.ciphertext with _ | ct
        · simp only [onDecrypt, hfind, hget, hct]
          exact ⟨by trivial, frame_pointwise_refl events id frameDecrypt frameDecrypt_refl⟩
        · rcases hiv : e0.iv with _ | iv
          · simp only [onDecrypt, hfind, hget, hct, hiv]
            exact ⟨by trivial, frame_pointwise_refl events id frameDecrypt frameDecrypt_refl⟩
          · rcases hwk : e0.wrappedKey with _ | wk
            · simp only [onDecrypt, hfind, hget, hct, hiv, hwk]
              exact ⟨by trivial, frame_pointwise_refl events id frameDecrypt frameDecrypt_refl⟩
            · by_cases hg : ct = "" ∨ iv = "" ∨ wk = ""
              · simp only [onDecrypt, hfind, hget, hct, hiv, hwk, if_pos hg]
                exact ⟨by trivial, frame_pointwise_refl events id frameDecrypt frameDecrypt_refl⟩
              · rcases hatt : decryptAttempt C encKey ct iv wk with _ | pt
                · simp only [onDecrypt, hfind, hget, hct, hiv, hwk, if_neg hg, hatt]
                  exact ⟨List.length_set events idx _,
                    frame_pointwise_set events id idx e0 _ hget hid0 frameDecrypt
                      frameDecrypt_refl (by
                        have h := frameDecrypt_fail e0
                        rw [hct, hiv, hwk] at h
                        exact h)⟩
                · simp only [onDecrypt, hfind, hget, hct, hiv, hwk, if_neg hg, hatt]
                  exact ⟨List.length_set events idx _,
                    frame_pointwise_set events id idx e0 _ hget hid0 frameDecrypt
                      frameDecrypt_refl (by
                        have h := frameDecrypt_ok e0
                        rw [hct, hiv, hwk] at h
                        exact h)⟩

theorem claim9_witness :
    ((onVerify SimpleCrypto 3
        [submitEvent SimpleCrypto 3 4 true false [1, 2] [5] [6] 1 "doc" 2 0] 1).length
      = [submitEvent SimpleCrypto 3 4 true false [1, 2] [5] [6] 1 "doc" 2 0].length) ∧
    ((onDecrypt SimpleCrypto 4
        [submitEvent SimpleCrypto 3 4 true false [1, 2] [5] [6] 1 "doc" 2 0] 1).length
      = [submitEvent SimpleCrypto 3 4 true false [1, 2] [5] [6] 1 "doc" 2 0].length) :=
  ⟨((claim9_frame SimpleCrypto 3 4
      [submitEvent SimpleCrypto 3 4 true false [1, 2] [5] [6] 1 "doc" 2 0] 1).1).1,
   ((claim9_frame SimpleCrypto 3 4
      [submitEvent SimpleCrypto 3 4 true false [1, 2] [5] [6] 1 "doc" 2 0] 1).2).1⟩

theorem claim5_witness :
    verifyBytes SimpleCrypto 0 [1] "AQ==" = some (SimpleCrypto.rsaVerify 0 [1] [1]) ∧
    onVerify SimpleCrypto 7
        [{ id := 7, filename := "f", size := 0, sha256 := "", signature := some "!",
           ciphertext := none, iv := none, wrappedKey := none, decryptedOk := none,
           authentic := none, tampered := none, createdAt := 0 }] 7
      = [{ id := 7, filename := "f", size := 0, sha256 := "", signature := some "!",
           ciphertext := none, iv := none, wrappedKey := none, decryptedOk := none,
           authentic := some false, tampered := none, createdAt := 0 }] :=
  ⟨(claim5_verify_amended SimpleCrypto 0 [1] "AQ==").1 [1] (by decide),
   (claim5_verify_amended SimpleCrypto 7 [] "!").2.2 _ rfl (by decide)⟩
